import Mathlib

/-!
# Verification of the `Cache` component of `src/data/cache.py`

A shallow embedding of the in-memory response cache: five insertion-ordered
category stores mapping ticker strings to record lists, a shared expiry map,
a process-wide TTL, merge-on-write deduplication, lazy expiry on read, a
size bound per category store, and disk snapshot/restore.

Modelling choices, each traceable to the source:
* A Python `dict` is an insertion-ordered association list
  `List (String × α)`; assignment to an existing key replaces the value in
  place, assignment to a fresh key appends at the end (CPython ≥ 3.7
  insertion-order semantics).
* Wall-clock instants (`datetime`) and durations (`timedelta`) are `Int`
  seconds; `timedelta(hours=1)` is `3600`.  `datetime.now()` is passed to
  each operation as an explicit `now : Int` argument.
* Record field values are `Nat` (the cache is content-agnostic; only
  equality of the dedup field's values is ever used).  A record is an
  association list from field name to value; `item[key_field]` on a record
  lacking the field raises `KeyError`.
* Python exceptions are an explicit `PyErr` result.  Mutating statements
  executed before a raise persist, so every stateful operation returns the
  state as mutated up to the raise point together with the outcome.
* `Cache._enforce_size_limit` calls `cache.popitem(last=False)` on a plain
  `dict`.  `dict.popitem` accepts no arguments, so the first loop iteration
  raises `TypeError` before removing anything; the embedding therefore
  errors, without mutating the store, whenever the length exceeds
  `MAX_CACHE_SIZE`, and otherwise leaves the store unchanged.
-/

/-- Python exceptions that the cache code can raise. -/
inductive PyErr where
  | keyError
  | typeError
  | unpicklingError
deriving DecidableEq, Repr

/-- A cache record: a JSON-like mapping from field name to value
(`dict[str, any]` in the source, values abstracted to `Nat`). -/
abbrev Record := List (String × Nat)

/-- Python `item[field]` made total: `some v` when the field is present,
`none` standing for the `KeyError` case. -/
def Record.getField (r : Record) (f : String) : Option Nat :=
  match r with
  | [] => none
  | p :: rest => if p.1 = f then some p.2 else Record.getField rest f

/-- Python `d.get(k)` on an insertion-ordered dict. -/
def alookup {α : Type} (l : List (String × α)) (k : String) : Option α :=
  match l with
  | [] => none
  | p :: rest => if p.1 = k then some p.2 else alookup rest k

/-- Python `k in d`. -/
def acontains {α : Type} (l : List (String × α)) (k : String) : Bool :=
  match l with
  | [] => false
  | p :: rest => if p.1 = k then true else acontains rest k

/-- Python `d[k] = v`: replace in place when the key exists, append when
fresh (insertion order preserved). -/
def ainsert {α : Type} (l : List (String × α)) (k : String) (v : α) :
    List (String × α) :=
  if acontains l k then
    l.map (fun p => if p.1 = k then (k, v) else p)
  else l ++ [(k, v)]

/-- Python `d.pop(k, None)`: remove the key if present. -/
def aerase {α : Type} (l : List (String × α)) (k : String) :
    List (String × α) :=
  l.filter (fun p => decide (p.1 ≠ k))

/-- One category's store: `dict[str, list[dict[str, any]]]`. -/
abbrev Store := List (String × List Record)

/-- The shared expiry map: `dict[str, datetime]`. -/
abbrev ExpiryMap := List (String × Int)

/-- Embeds `{item[key_field] for item in existing}` — the set of dedup-field
values of a record list, raising `KeyError` on a record lacking the field. -/
def collectKeys (l : List Record) (keyField : String) :
    Except PyErr (List Nat) :=
  match l with
  | [] => .ok []
  | item :: rest =>
    match item.getField keyField with
    | none => .error .keyError
    | some v =>
      match collectKeys rest keyField with
      | .error e => .error e
      | .ok ks => .ok (v :: ks)

/-- Embeds `[item for item in new_data if item[key_field] not in existing_keys]` —
keeps the input-order records whose dedup value is not already present,
raising `KeyError` on a record lacking the field. -/
def selectNew (existingKeys : List Nat) (newData : List Record)
    (keyField : String) : Except PyErr (List Record) :=
  match newData with
  | [] => .ok []
  | item :: rest =>
    match item.getField keyField with
    | none => .error .keyError
    | some v =>
      match selectNew existingKeys rest keyField with
      | .error e => .error e
      | .ok tail =>
        if v ∈ existingKeys then .ok tail else .ok (item :: tail)

/-- Embeds `Cache._merge_data`: `if not existing: return new_data`, otherwise
append the records of `new_data` whose dedup value is absent from
`existing`. -/
def mergeData (existing : Option (List Record)) (newData : List Record)
    (keyField : String) : Except PyErr (List Record) :=
  match existing with
  | none => .ok newData
  | some [] => .ok newData
  | some ex =>
    match collectKeys ex keyField with
    | .error e => .error e
    | .ok ks =>
      match selectNew ks newData keyField with
      | .error e => .error e
      | .ok ns => .ok (ex ++ ns)

/-- Embeds `Cache.MAX_CACHE_SIZE`. -/
def MAX_CACHE_SIZE : Nat := 10000

/-- Embeds `Cache._enforce_size_limit`: when the store exceeds the bound the loop
body executes `cache.popitem(last=False)` on a plain `dict`, which raises
`TypeError` immediately (no entry is removed); otherwise nothing happens. -/
def enforceSizeLimit (store : Store) : Except PyErr Unit :=
  if store.length > MAX_CACHE_SIZE then .error .typeError else .ok ()

/-- Embeds `Cache._is_expired`. -/
def isExpired (em : ExpiryMap) (ticker : String) (now : Int) : Bool :=
  match alookup em ticker with
  | none => false
  | some expiry => now > expiry

/-- The mutable state of a `Cache` instance. -/
structure Cache where
  prices : Store
  financialMetrics : Store
  lineItems : Store
  insiderTrades : Store
  companyNews : Store
  cacheExpiry : ExpiryMap
  ttl : Int
deriving DecidableEq, Repr

/-- Embeds `Cache.__init__`: five empty stores, empty expiry map, 1-hour TTL. -/
def initCache : Cache :=
  { prices := [], financialMetrics := [], lineItems := [],
    insiderTrades := [], companyNews := [], cacheExpiry := [], ttl := 3600 }

/-- The common body of the five `get_*` methods: on an expired ticker, pop
it from the read store and the expiry map and return absent; otherwise
return the stored list (or absent). -/
def getFromStore (store : Store) (em : ExpiryMap) (ticker : String)
    (now : Int) : Option (List Record) × Store × ExpiryMap :=
  if isExpired em ticker now then
    (none, aerase store ticker, aerase em ticker)
  else
    (alookup store ticker, store, em)

/-- The common body of the five `set_*` methods: merge (a `KeyError` here
aborts before any mutation), then assign the merged list, refresh the
shared expiry to `now + ttl`, and enforce the size limit (whose `TypeError`
leaves the two earlier mutations in place). -/
def setInStore (store : Store) (em : ExpiryMap) (ticker : String)
    (data : List Record) (keyField : String) (now : Int) (ttl : Int) :
    Store × ExpiryMap × Except PyErr Unit :=
  match mergeData (alookup store ticker) data keyField with
  | .error e => (store, em, .error e)
  | .ok merged =>
    let store' := ainsert store ticker merged
    let em' := ainsert em ticker (now + ttl)
    match enforceSizeLimit store' with
    | .error e => (store', em', .error e)
    | .ok _ => (store', em', .ok ())

/-- Embeds `Cache.get_prices`. -/
def getPrices (c : Cache) (ticker : String) (now : Int) :
    Option (List Record) × Cache :=
  match getFromStore c.prices c.cacheExpiry ticker now with
  | (r, s, e) => (r, { c with prices := s, cacheExpiry := e })

/-- Embeds `Cache.set_prices` (dedup field `"time"`). -/
def setPrices (c : Cache) (ticker : String) (data : List Record)
    (now : Int) : Cache × Except PyErr Unit :=
  match setInStore c.prices c.cacheExpiry ticker data "time" now c.ttl with
  | (s, e, r) => ({ c with prices := s, cacheExpiry := e }, r)

/-- Embeds `Cache.get_financial_metrics`. -/
def getFinancialMetrics (c : Cache) (ticker : String) (now : Int) :
    Option (List Record) × Cache :=
  match getFromStore c.financialMetrics c.cacheExpiry ticker now with
  | (r, s, e) => (r, { c with financialMetrics := s, cacheExpiry := e })

/-- Embeds `Cache.set_financial_metrics` (dedup field `"report_period"`). -/
def setFinancialMetrics (c : Cache) (ticker : String) (data : List Record)
    (now : Int) : Cache × Except PyErr Unit :=
  match setInStore c.financialMetrics c.cacheExpiry ticker data
      "report_period" now c.ttl with
  | (s, e, r) => ({ c with financialMetrics := s, cacheExpiry := e }, r)

/-- Embeds `Cache.get_line_items`. -/
def getLineItems (c : Cache) (ticker : String) (now : Int) :
    Option (List Record) × Cache :=
  match getFromStore c.lineItems c.cacheExpiry ticker now with
  | (r, s, e) => (r, { c with lineItems := s, cacheExpiry := e })

/-- Embeds `Cache.set_line_items` (dedup field `"report_period"`). -/
def setLineItems (c : Cache) (ticker : String) (data : List Record)
    (now : Int) : Cache × Except PyErr Unit :=
  match setInStore c.lineItems c.cacheExpiry ticker data "report_period"
      now c.ttl with
  | (s, e, r) => ({ c with lineItems := s, cacheExpiry := e }, r)

/-- Embeds `Cache.get_insider_trades`. -/
def getInsiderTrades (c : Cache) (ticker : String) (now : Int) :
    Option (List Record) × Cache :=
  match getFromStore c.insiderTrades c.cacheExpiry ticker now with
  | (r, s, e) => (r, { c with insiderTrades := s, cacheExpiry := e })

/-- Embeds `Cache.set_insider_trades` (dedup field `"filing_date"`). -/
def setInsiderTrades (c : Cache) (ticker : String) (data : List Record)
    (now : Int) : Cache × Except PyErr Unit :=
  match setInStore c.insiderTrades c.cacheExpiry ticker data "filing_date"
      now c.ttl with
  | (s, e, r) => ({ c with insiderTrades := s, cacheExpiry := e }, r)

/-- Embeds `Cache.get_company_news`. -/
def getCompanyNews (c : Cache) (ticker : String) (now : Int) :
    Option (List Record) × Cache :=
  match getFromStore c.companyNews c.cacheExpiry ticker now with
  | (r, s, e) => (r, { c with companyNews := s, cacheExpiry := e })

/-- Embeds `Cache.set_company_news` (dedup field `"date"`). -/
def setCompanyNews (c : Cache) (ticker : String) (data : List Record)
    (now : Int) : Cache × Except PyErr Unit :=
  match setInStore c.companyNews c.cacheExpiry ticker data "date" now
      c.ttl with
  | (s, e, r) => ({ c with companyNews := s, cacheExpiry := e }, r)

/-- Embeds `Cache.set_ttl(hours)`. -/
def setTTL (c : Cache) (hours : Int) : Cache :=
  { c with ttl := hours * 3600 }

/-- The five cache categories. -/
inductive Category where
  | prices
  | financialMetrics
  | lineItems
  | insiderTrades
  | companyNews
deriving DecidableEq, Repr

/-- The fixed dedup field of each category. -/
def Category.keyField : Category → String
  | .prices => "time"
  | .financialMetrics => "report_period"
  | .lineItems => "report_period"
  | .insiderTrades => "filing_date"
  | .companyNews => "date"

/-- The store belonging to a category. -/
def Cache.store (c : Cache) : Category → Store
  | .prices => c.prices
  | .financialMetrics => c.financialMetrics
  | .lineItems => c.lineItems
  | .insiderTrades => c.insiderTrades
  | .companyNews => c.companyNews

/-- Dispatch to the category's `get_*` method. -/
def getCategory (c : Cache) (cat : Category) (ticker : String) (now : Int) :
    Option (List Record) × Cache :=
  match cat with
  | .prices => getPrices c ticker now
  | .financialMetrics => getFinancialMetrics c ticker now
  | .lineItems => getLineItems c ticker now
  | .insiderTrades => getInsiderTrades c ticker now
  | .companyNews => getCompanyNews c ticker now

/-- Dispatch to the category's `set_*` method. -/
def setCategory (c : Cache) (cat : Category) (ticker : String)
    (data : List Record) (now : Int) : Cache × Except PyErr Unit :=
  match cat with
  | .prices => setPrices c ticker data now
  | .financialMetrics => setFinancialMetrics c ticker data now
  | .lineItems => setLineItems c ticker data now
  | .insiderTrades => setInsiderTrades c ticker data now
  | .companyNews => setCompanyNews c ticker data now

/-- The logical content of a pickled snapshot file.  `ttl` is optional
because `load_from_disk` reads it with `data.get("ttl", timedelta(hours=1))`;
`save_to_disk` always writes it. -/
structure Snapshot where
  prices : Store
  financialMetrics : Store
  lineItems : Store
  insiderTrades : Store
  companyNews : Store
  expiry : ExpiryMap
  ttlField : Option Int
deriving DecidableEq, Repr

/-- The filesystem visible to the snapshot code: a map from path to file
content, where a present file either deserializes to a `Snapshot` or is
corrupt (`none`). -/
abbrev FileSystem := List (String × Option Snapshot)

/-- The snapshot `Cache.save_to_disk` writes. -/
def snapshotOf (c : Cache) : Snapshot :=
  { prices := c.prices, financialMetrics := c.financialMetrics,
    lineItems := c.lineItems, insiderTrades := c.insiderTrades,
    companyNews := c.companyNews, expiry := c.cacheExpiry,
    ttlField := some c.ttl }

/-- Embeds `Cache.save_to_disk`: overwrite `path` with the serialized state. -/
def saveToDisk (c : Cache) (fs : FileSystem) (path : String) : FileSystem :=
  ainsert fs path (some (snapshotOf c))

/-- Embeds `Cache.load_from_disk`: a missing file (`FileNotFoundError`) is caught
and the state kept; a corrupt file propagates the deserialization error;
otherwise every field is replaced from the snapshot, with the 1-hour
default when the snapshot lacks a TTL. -/
def loadFromDisk (c : Cache) (fs : FileSystem) (path : String) :
    Cache × Except PyErr Unit :=
  match alookup fs path with
  | none => (c, .ok ())
  | some none => (c, .error .unpicklingError)
  | some (some d) =>
    ({ prices := d.prices, financialMetrics := d.financialMetrics,
       lineItems := d.lineItems, insiderTrades := d.insiderTrades,
       companyNews := d.companyNews, cacheExpiry := d.expiry,
       ttl := d.ttlField.getD 3600 }, .ok ())

/-! ## Association-list lemmas -/

theorem acontains_eq_false_iff {α : Type} (l : List (String × α)) (k : String) :
    acontains l k = false ↔ alookup l k = none := by
  induction l with
  | nil => simp [acontains, alookup]
  | cons p rest ih => by_cases h : p.1 = k <;> simp [acontains, alookup, h, ih]

theorem alookup_append {α : Type} (l1 l2 : List (String × α)) (k : String) :
    alookup (l1 ++ l2) k =
      match alookup l1 k with
      | some v => some v
      | none => alookup l2 k := by
  induction l1 with
  | nil => simp [alookup]
  | cons p rest ih => by_cases h : p.1 = k <;> simp [alookup, h, ih]

theorem alookup_map_replace_self {α : Type} (l : List (String × α)) (k : String)
    (v : α) (h : acontains l k = true) :
    alookup (l.map (fun p => if p.1 = k then (k, v) else p)) k = some v := by
  induction l with
  | nil => simp [acontains] at h
  | cons p rest ih =>
    by_cases hp : p.1 = k
    · simp [alookup, hp]
    · simp only [acontains, if_neg hp] at h
      simp [alookup, hp, ih h]

theorem alookup_map_replace_ne {α : Type} (l : List (String × α)) (k k' : String)
    (v : α) (h : ¬ k = k') :
    alookup (l.map (fun p => if p.1 = k then (k, v) else p)) k' = alookup l k' := by
  induction l with
  | nil => simp [alookup]
  | cons p rest ih =>
    by_cases hp : p.1 = k
    · simp [alookup, hp, h, ih]
    · simp [alookup, hp, ih]

theorem alookup_ainsert_self {α : Type} (l : List (String × α)) (k : String)
    (v : α) : alookup (ainsert l k v) k = some v := by
  unfold ainsert
  by_cases h : acontains l k
  · simp only [h, if_true, alookup_map_replace_self l k v h]
  · simp only [Bool.not_eq_true] at h
    simp only [h, Bool.false_eq_true, if_false, alookup_append,
      (acontains_eq_false_iff l k).mp h]
    simp [alookup]

theorem alookup_ainsert_ne {α : Type} (l : List (String × α)) (k k' : String)
    (v : α) (h : ¬ k = k') :
    alookup (ainsert l k v) k' = alookup l k' := by
  unfold ainsert
  by_cases hc : acontains l k
  · simp only [hc, if_true, alookup_map_replace_ne l k k' v h]
  · simp only [Bool.not_eq_true] at hc
    simp only [hc, Bool.false_eq_true, if_false, alookup_append]
    have : alookup [(k, v)] k' = none := by simp [alookup, h]
    rw [this]
    cases alookup l k' <;> rfl

/-! ## Bridging lemmas between the category dispatchers and the common
method bodies -/

/-- Replace a category's store and the shared expiry map. -/
def Cache.withStore (c : Cache) (cat : Category) (s : Store)
    (em : ExpiryMap) : Cache :=
  match cat with
  | .prices => { c with prices := s, cacheExpiry := em }
  | .financialMetrics => { c with financialMetrics := s, cacheExpiry := em }
  | .lineItems => { c with lineItems := s, cacheExpiry := em }
  | .insiderTrades => { c with insiderTrades := s, cacheExpiry := em }
  | .companyNews => { c with companyNews := s, cacheExpiry := em }

theorem getCategory_eq (c : Cache) (cat : Category) (ticker : String)
    (now : Int) :
    getCategory c cat ticker now =
      (match getFromStore (c.store cat) c.cacheExpiry ticker now with
       | (r, s, e) => (r, c.withStore cat s e)) := by
  cases cat <;> rfl

theorem setCategory_eq (c : Cache) (cat : Category) (ticker : String)
    (data : List Record) (now : Int) :
    setCategory c cat ticker data now =
      (match setInStore (c.store cat) c.cacheExpiry ticker data cat.keyField
          now c.ttl with
       | (s, e, r) => (c.withStore cat s e, r)) := by
  cases cat <;> rfl

theorem withStore_cacheExpiry (c : Cache) (cat : Category) (s : Store)
    (em : ExpiryMap) : (c.withStore cat s em).cacheExpiry = em := by
  cases cat <;> rfl

theorem withStore_store_self (c : Cache) (cat : Category) (s : Store)
    (em : ExpiryMap) : (c.withStore cat s em).store cat = s := by
  cases cat <;> rfl

theorem withStore_store_ne (c : Cache) (cat cat' : Category) (s : Store)
    (em : ExpiryMap) (h : cat' ≠ cat) :
    (c.withStore cat s em).store cat' = c.store cat' := by
  cases cat <;> cases cat' <;> first | rfl | exact absurd rfl h

theorem withStore_ttl (c : Cache) (cat : Category) (s : Store)
    (em : ExpiryMap) : (c.withStore cat s em).ttl = c.ttl := by
  cases cat <;> rfl

/-! ## Behaviour of the common `set` body -/

theorem setInStore_of_merge_ok (store : Store) (em : ExpiryMap)
    (ticker : String) (data : List Record) (f : String) (now ttl : Int)
    (m : List Record) (hm : mergeData (alookup store ticker) data f = .ok m) :
    (setInStore store em ticker data f now ttl).1 = ainsert store ticker m ∧
    (setInStore store em ticker data f now ttl).2.1 =
      ainsert em ticker (now + ttl) := by
  unfold setInStore
  rw [hm]
  dsimp only
  cases enforceSizeLimit (ainsert store ticker m) <;> exact ⟨rfl, rfl⟩

theorem setInStore_of_merge_error (store : Store) (em : ExpiryMap)
    (ticker : String) (data : List Record) (f : String) (now ttl : Int)
    (e : PyErr) (hm : mergeData (alookup store ticker) data f = .error e) :
    setInStore store em ticker data f now ttl = (store, em, .error e) := by
  unfold setInStore
  rw [hm]

/-- After a successful set, a get of the same (category, ticker) sees the
merged list until `t0 + ttl` (inclusive) and absent strictly afterwards. -/
theorem getCategory_after_setCategory (c : Cache) (cat : Category)
    (ticker : String) (data : List Record) (t0 now : Int) (m : List Record)
    (hm : mergeData (alookup (c.store cat) ticker) data cat.keyField = .ok m) :
    (getCategory (setCategory c cat ticker data t0).1 cat ticker now).1 =
      if now > t0 + c.ttl then none else some m := by
  obtain ⟨h1, h2⟩ := setInStore_of_merge_ok (c.store cat) c.cacheExpiry
    ticker data cat.keyField t0 c.ttl m hm
  rw [setCategory_eq]
  rcases hx : setInStore (c.store cat) c.cacheExpiry ticker data
    cat.keyField t0 c.ttl with ⟨s, e, r⟩
  rw [hx] at h1 h2
  dsimp only at h1 h2 ⊢
  subst h1
  subst h2
  rw [getCategory_eq, withStore_store_self, withStore_cacheExpiry]
  unfold getFromStore isExpired
  rw [alookup_ainsert_self]
  by_cases hgt : now > t0 + c.ttl
  · simp [hgt]
  · simp [hgt, alookup_ainsert_self]

/-- C3: every `set` call, for any of the five categories, refreshes the
single shared expiry entry of the written ticker to `now + TTL` and leaves
other tickers' expiry entries untouched; the expiry map is keyed by ticker
alone, so a write to any one category refreshes the staleness deadline of
that ticker's data in all five categories. -/
theorem set_refreshes_shared_expiry (c : Cache) (cat : Category)
    (ticker : String) (data : List Record) (now : Int) (m : List Record)
    (hm : mergeData (alookup (c.store cat) ticker) data cat.keyField =
      .ok m) :
    alookup ((setCategory c cat ticker data now).1.cacheExpiry) ticker =
      some (now + c.ttl) ∧
    ∀ k, ¬ k = ticker →
      alookup ((setCategory c cat ticker data now).1.cacheExpiry) k =
        alookup c.cacheExpiry k := by
  obtain ⟨h1, h2⟩ := setInStore_of_merge_ok (c.store cat) c.cacheExpiry
    ticker data cat.keyField now c.ttl m hm
  rw [setCategory_eq]
  rcases hx : setInStore (c.store cat) c.cacheExpiry ticker data
    cat.keyField now c.ttl with ⟨s, e, r⟩
  rw [hx] at h1 h2
  dsimp only at h1 h2 ⊢
  subst h2
  rw [withStore_cacheExpiry]
  constructor
  · exact alookup_ainsert_self _ _ _
  · intro k hk
    exact alookup_ainsert_ne _ _ _ _ (fun h => hk h.symm)

/-- Witness for C3 at a concrete input: a `set_prices` call on the empty
cache at time 7 sets the shared expiry entry of `"A"` to `7 + 3600`. -/
theorem set_refreshes_shared_expiry_witness :
    alookup ((setCategory initCache Category.prices "A" [[("time", 1)]]
      7).1.cacheExpiry) "A" = some 3607 := by
  simpa using (set_refreshes_shared_expiry initCache Category.prices "A"
    [[("time", 1)]] 7 [[("time", 1)]] rfl).1

/-- C5: with the process-wide TTL equal to `T` and no intervening set for
the ticker, a set at `t0` followed by a get of the same (category, ticker)
at `t0+T+ε` returns absent, while a get at `t0+T−ε` returns the stored
record list. -/
theorem set_then_get_ttl_expiry (c : Cache) (cat : Category)
    (ticker : String) (data : List Record) (t0 ε : Int) (hε : 0 < ε)
    (m : List Record)
    (hm : mergeData (alookup (c.store cat) ticker) data cat.keyField =
      .ok m) :
    (getCategory (setCategory c cat ticker data t0).1 cat ticker
      (t0 + c.ttl + ε)).1 = none ∧
    (getCategory (setCategory c cat ticker data t0).1 cat ticker
      (t0 + c.ttl - ε)).1 = some m := by
  constructor
  · rw [getCategory_after_setCategory c cat ticker data t0 _ m hm,
      if_pos (by omega)]
  · rw [getCategory_after_setCategory c cat ticker data t0 _ m hm,
      if_neg (by omega)]

/-- Witness for C5 at a concrete input: `set_company_news` on the empty
cache at time 0, read back 1 second after and 1 second before the
TTL deadline. -/
theorem set_then_get_ttl_expiry_witness :
    (getCategory (setCategory initCache Category.companyNews "A"
      [[("date", 2)]] 0).1 Category.companyNews "A"
      (0 + initCache.ttl + 1)).1 = none ∧
    (getCategory (setCategory initCache Category.companyNews "A"
      [[("date", 2)]] 0).1 Category.companyNews "A"
      (0 + initCache.ttl - 1)).1 = some [[("date", 2)]] :=
  set_then_get_ttl_expiry initCache Category.companyNews "A"
    [[("date", 2)]] 0 1 (by decide) [[("date", 2)]] rfl

/-- C6: reading a ticker whose shared expiry timestamp is in the past
returns absent, removes the ticker from the read category's store and from
the expiry map, and leaves the other four categories' stores unchanged. -/
theorem expired_get_evicts_only_read_category (c : Cache) (cat : Category)
    (ticker : String) (now expiry : Int)
    (h1 : alookup c.cacheExpiry ticker = some expiry) (h2 : now > expiry) :
    (getCategory c cat ticker now).1 = none ∧
    (getCategory c cat ticker now).2.store cat =
      aerase (c.store cat) ticker ∧
    (getCategory c cat ticker now).2.cacheExpiry =
      aerase c.cacheExpiry ticker ∧
    ∀ cat', cat' ≠ cat →
      (getCategory c cat ticker now).2.store cat' = c.store cat' := by
  have hexp : isExpired c.cacheExpiry ticker now = true := by
    unfold isExpired
    rw [h1]
    simpa using h2
  simp only [getCategory_eq, getFromStore, hexp, if_true]
  exact ⟨trivial, withStore_store_self .., withStore_cacheExpiry ..,
    fun cat' hne => withStore_store_ne c cat cat' _ _ hne⟩

/-- A small cache state whose ticker `"A"` is already expired at time 10,
with data in the prices and line-items stores. -/
def expiredSampleCache : Cache :=
  { initCache with
    prices := [("A", [[("time", 1)]])],
    lineItems := [("A", [])],
    cacheExpiry := [("A", 5)] }

/-- Witness for C6 at a concrete input: a cache holding `"A"` in the
prices and line-items stores with expiry 5, read via `get_prices` at
time 10. -/
theorem expired_get_evicts_only_read_category_witness :
    ((getCategory expiredSampleCache Category.prices "A" 10).1 = none) ∧
    ((getCategory expiredSampleCache Category.prices "A" 10).2.store
      Category.lineItems = [("A", [])]) := by
  have h := expired_get_evicts_only_read_category expiredSampleCache
    Category.prices "A" 10 5 (by decide) (by decide)
  exact ⟨h.1, (h.2.2.2 Category.lineItems (by decide)).trans rfl⟩

/-- C4 counterexample: with TTL 3600, `set_prices("A")` at 0, then
`set_line_items("A")` at Δ = 100, then `get_prices("A")` at 0+TTL+ε with
ε = 50 > 0: the claim says absent, but the code returns the price data,
because the second write refreshed the shared expiry to 3700 > 3650. -/
theorem shared_expiry_get_before_refresh_deadline :
    (getPrices (setLineItems (setPrices initCache "A" [[("time", 1)]] 0).1
      "A" [[("report_period", 2)]] 100).1 "A" (0 + 3600 + 50)).1 =
      some [[("time", 1)]] := by decide

/-- C4 amended: after `set_prices(key)` at `t0` and `set_line_items(key)`
at `t0+Δ` with `0 < Δ < TTL`, a `get_prices(key)` at `t0+TTL+ε` returns
absent for every `ε > Δ` (not for every `ε > 0`): the write to the other
category refreshed the shared expiry to `t0+Δ+TTL`. -/
theorem shared_expiry_refreshed_by_other_category (key : String)
    (d1 d2 : List Record) (t0 dt ε : Int) (h1 : 0 < dt) (h2 : dt < 3600)
    (h3 : ε > dt) :
    (getPrices (setLineItems (setPrices initCache key d1 t0).1 key d2
      (t0 + dt)).1 key (t0 + 3600 + ε)).1 = none := by
  have hexp : t0 + dt + 3600 < t0 + 3600 + ε := by omega
  simp [setPrices, setLineItems, getPrices, setInStore, getFromStore,
    mergeData, ainsert, acontains, alookup, isExpired, enforceSizeLimit,
    MAX_CACHE_SIZE, initCache, hexp]

/-- Witness for the amended C4 at a concrete input: Δ = 100, ε = 150. -/
theorem shared_expiry_refreshed_by_other_category_witness :
    (getPrices (setLineItems (setPrices initCache "A" [[("time", 1)]] 0).1
      "A" [[("report_period", 2)]] (0 + 100)).1 "A" (0 + 3600 + 150)).1 =
      none :=
  shared_expiry_refreshed_by_other_category "A" [[("time", 1)]]
    [[("report_period", 2)]] 0 100 150 (by decide) (by decide) (by decide)

/-- C7: loading from a path holding no file returns normally and leaves
the whole in-memory state (all five stores, the expiry map and the TTL)
exactly as it was; loading a present-but-undeserializable file propagates
the error to the caller. -/
theorem load_missing_noop_corrupt_propagates (c : Cache) (fs : FileSystem)
    (path : String) :
    (alookup fs path = none → loadFromDisk c fs path = (c, .ok ())) ∧
    (alookup fs path = some none →
      (loadFromDisk c fs path).2 = .error .unpicklingError) := by
  constructor
  · intro h
    unfold loadFromDisk
    rw [h]
  · intro h
    unfold loadFromDisk
    rw [h]

/-- Witness for C7 at concrete inputs: an empty filesystem (file missing)
and a filesystem holding a corrupt file at the default path. -/
theorem load_missing_noop_corrupt_propagates_witness :
    loadFromDisk initCache [] "cache.pkl" = (initCache, .ok ()) ∧
    (loadFromDisk initCache [("cache.pkl", none)] "cache.pkl").2 =
      .error .unpicklingError :=
  ⟨(load_missing_noop_corrupt_propagates initCache [] "cache.pkl").1 rfl,
   (load_missing_noop_corrupt_propagates initCache [("cache.pkl", none)]
     "cache.pkl").2 (by decide)⟩

/-- C8: saving a snapshot and loading it into a freshly constructed cache
restores the saved state exactly, so the get result of every (category,
ticker) pair at every read time, and the TTL, agree with the original. -/
theorem snapshot_roundtrip (c : Cache) (fs : FileSystem) (path : String) :
    loadFromDisk initCache (saveToDisk c fs path) path = (c, .ok ()) ∧
    (∀ cat ticker now,
      (getCategory (loadFromDisk initCache (saveToDisk c fs path) path).1
        cat ticker now).1 = (getCategory c cat ticker now).1) ∧
    (loadFromDisk initCache (saveToDisk c fs path) path).1.ttl = c.ttl := by
  have h : loadFromDisk initCache (saveToDisk c fs path) path =
      (c, .ok ()) := by
    unfold loadFromDisk saveToDisk
    rw [alookup_ainsert_self]
    rfl
  refine ⟨h, fun cat ticker now => ?_, ?_⟩ <;> rw [h]

/-! ## C1: the size bound -/

theorem acontains_eq_false {α : Type} (l : List (String × α)) (k : String)
    (h : ∀ p ∈ l, ¬ p.1 = k) : acontains l k = false := by
  induction l with
  | nil => rfl
  | cons p rest ih =>
    simp only [acontains, if_neg (h p (by simp))]
    exact ih (fun q hq => h q (by simp [hq]))

theorem setInStore_of_enforce_error (store : Store) (em : ExpiryMap)
    (ticker : String) (data : List Record) (f : String) (now ttl : Int)
    (m : List Record)
    (hm : mergeData (alookup store ticker) data f = .ok m)
    (he : enforceSizeLimit (ainsert store ticker m) = .error .typeError) :
    setInStore store em ticker data f now ttl =
      (ainsert store ticker m, ainsert em ticker (now + ttl),
        .error .typeError) := by
  unfold setInStore
  rw [hm]
  dsimp only
  rw [he]

/-- C1 (refuted): when the prices store already holds exactly
`MAX_CACHE_SIZE` tickers and `set_prices` inserts one more distinct
ticker, `_enforce_size_limit` reaches `popitem(last=False)` on a plain
`dict` and raises `TypeError`; no entry is evicted — the store afterwards
holds all 10,001 entries, the first-inserted ticker included, instead of
silently dropping it. -/
theorem set_prices_on_full_store_raises (c : Cache) (ticker : String)
    (data : List Record) (now : Int)
    (h1 : c.prices.length = MAX_CACHE_SIZE)
    (h2 : acontains c.prices ticker = false) :
    (setPrices c ticker data now).2 = .error .typeError ∧
    (setPrices c ticker data now).1.prices =
      c.prices ++ [(ticker, data)] := by
  have hl : alookup c.prices ticker = none :=
    (acontains_eq_false_iff _ _).mp h2
  have hm : mergeData (alookup c.prices ticker) data "time" = .ok data := by
    rw [hl]
    rfl
  have hstore : ainsert c.prices ticker data =
      c.prices ++ [(ticker, data)] := by
    unfold ainsert
    rw [h2]
    simp
  have he : enforceSizeLimit (ainsert c.prices ticker data) =
      .error .typeError := by
    unfold enforceSizeLimit
    rw [if_pos]
    rw [hstore]
    simp [h1, MAX_CACHE_SIZE]
  unfold setPrices
  rw [setInStore_of_enforce_error c.prices c.cacheExpiry ticker data "time"
    now c.ttl data hm he]
  exact ⟨rfl, hstore⟩

/-- Builds `n` distinct tickers `""`, `"a"`, `"aa"`, …, each with an empty record
list. -/
def manyTickers (n : Nat) : Store :=
  (List.range n).map
    (fun i => (String.mk (List.replicate i 'a'), ([] : List Record)))

/-- A cache whose prices store holds exactly `MAX_CACHE_SIZE` distinct
tickers. -/
def fullCache : Cache := { initCache with prices := manyTickers MAX_CACHE_SIZE }

theorem manyTickers_length (n : Nat) : (manyTickers n).length = n := by
  simp [manyTickers]

theorem mk_replicate_ne_K (i : Nat) :
    ¬ String.mk (List.replicate i 'a') = "K" := by
  intro h
  have hd : List.replicate i 'a' = ['K'] := congrArg String.data h
  cases i with
  | zero => simp at hd
  | succ n =>
    rw [List.replicate_succ] at hd
    injection hd with hhead htail
    exact absurd hhead (by decide)

theorem acontains_append {α : Type} (l1 l2 : List (String × α))
    (k : String) :
    acontains (l1 ++ l2) k = (acontains l1 k || acontains l2 k) := by
  induction l1 with
  | nil => simp [acontains]
  | cons p rest ih => by_cases h : p.1 = k <;> simp [acontains, h, ih]

theorem manyTickers_succ (n : Nat) :
    manyTickers (n + 1) = manyTickers n ++
      [(String.mk (List.replicate n 'a'), [])] := by
  simp [manyTickers, List.range_succ]

theorem manyTickers_not_contains_K (n : Nat) :
    acontains (manyTickers n) "K" = false := by
  induction n with
  | zero => rfl
  | succ m ih =>
    rw [manyTickers_succ, acontains_append, ih]
    simp [acontains, mk_replicate_ne_K m]

attribute [irreducible] manyTickers

/-- Witness for C1's refutation at a concrete input: adding ticker `"K"`
to a prices store already holding 10,000 distinct tickers raises
`TypeError` and evicts nothing. -/
theorem set_prices_on_full_store_raises_witness :
    (setPrices fullCache "K" [] 0).2 = .error .typeError ∧
    (setPrices fullCache "K" [] 0).1.prices =
      fullCache.prices ++ [("K", [])] :=
  set_prices_on_full_store_raises fullCache "K" [] 0
    (manyTickers_length MAX_CACHE_SIZE)
    (manyTickers_not_contains_K MAX_CACHE_SIZE)

/-! ## Lemmas about the merge building blocks -/

/-- The dedup values of the records of a list that carry the field, in
order. -/
def keysOf (l : List Record) (f : String) : List Nat :=
  l.filterMap (fun r => r.getField f)

theorem keysOf_nil (f : String) : keysOf [] f = [] := rfl

theorem keysOf_cons_some (r : Record) (rest : List Record) (f : String)
    (v : Nat) (h : r.getField f = some v) :
    keysOf (r :: rest) f = v :: keysOf rest f := by
  simp [keysOf, List.filterMap_cons, h]

theorem keysOf_append (l1 l2 : List Record) (f : String) :
    keysOf (l1 ++ l2) f = keysOf l1 f ++ keysOf l2 f := by
  simp [keysOf]

theorem collectKeys_error_is_keyError (l : List Record) (f : String)
    (e : PyErr) (h : collectKeys l f = .error e) : e = .keyError := by
  induction l with
  | nil => simp [collectKeys] at h
  | cons item rest ih =>
    unfold collectKeys at h
    cases hgf : item.getField f with
    | none =>
      rw [hgf] at h
      cases h
      rfl
    | some v =>
      rw [hgf] at h
      cases hck : collectKeys rest f with
      | error e' =>
        rw [hck] at h
        cases h
        exact ih hck
      | ok ks =>
        rw [hck] at h
        cases h

theorem collectKeys_of_present (l : List Record) (f : String)
    (h : ∀ r ∈ l, (r.getField f).isSome) :
    collectKeys l f = .ok (keysOf l f) := by
  induction l with
  | nil => rfl
  | cons item rest ih =>
    obtain ⟨v, hv⟩ := Option.isSome_iff_exists.mp (h item (by simp))
    have hrest := ih (fun r hr => h r (by simp [hr]))
    unfold collectKeys
    rw [hv, hrest, keysOf_cons_some item rest f v hv]

theorem collectKeys_mem (l : List Record) (f : String) (ks : List Nat)
    (h : collectKeys l f = .ok ks) (r : Record) (hr : r ∈ l) (v : Nat)
    (hv : r.getField f = some v) : v ∈ ks := by
  induction l generalizing ks with
  | nil => simp at hr
  | cons item rest ih =>
    unfold collectKeys at h
    cases hgf : item.getField f with
    | none =>
      rw [hgf] at h
      cases h
    | some w =>
      rw [hgf] at h
      cases hck : collectKeys rest f with
      | error e =>
        rw [hck] at h
        cases h
      | ok ks' =>
        rw [hck] at h
        cases h
        rcases List.mem_cons.mp hr with rfl | hr'
        · rw [hgf] at hv
          cases hv
          exact List.mem_cons_self _ _
        · exact List.mem_cons_of_mem _ (ih ks' hck hr')

theorem collectKeys_mem_inv (l : List Record) (f : String) (ks : List Nat)
    (h : collectKeys l f = .ok ks) (v : Nat) (hv : v ∈ ks) :
    ∃ r ∈ l, r.getField f = some v := by
  induction l generalizing ks with
  | nil =>
    unfold collectKeys at h
    cases h
    simp at hv
  | cons item rest ih =>
    unfold collectKeys at h
    cases hgf : item.getField f with
    | none =>
      rw [hgf] at h
      cases h
    | some w =>
      rw [hgf] at h
      cases hck : collectKeys rest f with
      | error e =>
        rw [hck] at h
        cases h
      | ok ks' =>
        rw [hck] at h
        cases h
        rcases List.mem_cons.mp hv with rfl | hv'
        · exact ⟨item, by simp, hgf⟩
        · obtain ⟨r, hr, hrv⟩ := ih ks' hck hv'
          exact ⟨r, by simp [hr], hrv⟩

theorem selectNew_error_of_missing_field (ks : List Nat)
    (d : List Record) (f : String) (h : ∃ r ∈ d, r.getField f = none) :
    selectNew ks d f = .error .keyError := by
  induction d with
  | nil => simp at h
  | cons item rest ih =>
    cases hgf : item.getField f with
    | none =>
      unfold selectNew
      rw [hgf]
    | some v =>
      obtain ⟨r, hr, hrn⟩ := h
      rcases List.mem_cons.mp hr with rfl | hr'
      · rw [hgf] at hrn
        cases hrn
      · unfold selectNew
        rw [hgf, ih ⟨r, hr', hrn⟩]

theorem selectNew_all_mem (ks : List Nat) (d : List Record) (f : String)
    (h : ∀ r ∈ d, ∃ v, r.getField f = some v ∧ v ∈ ks) :
    selectNew ks d f = .ok [] := by
  induction d with
  | nil => rfl
  | cons item rest ih =>
    obtain ⟨v, hv, hmem⟩ := h item (by simp)
    have hrest := ih (fun r hr => h r (by simp [hr]))
    unfold selectNew
    rw [hv, hrest]
    dsimp only
    rw [if_pos hmem]

theorem selectNew_sound (ks : List Nat) (d ns : List Record) (f : String)
    (h : selectNew ks d f = .ok ns) (r : Record) (hr : r ∈ d) :
    (∃ v, r.getField f = some v) ∧
    (∀ v, r.getField f = some v → v ∉ ks → r ∈ ns) := by
  induction d generalizing ns with
  | nil => simp at hr
  | cons item rest ih =>
    unfold selectNew at h
    cases hgf : item.getField f with
    | none =>
      rw [hgf] at h
      cases h
    | some w =>
      rw [hgf] at h
      cases hsn : selectNew ks rest f with
      | error e =>
        rw [hsn] at h
        cases h
      | ok tail =>
        rw [hsn] at h
        dsimp only at h
        rcases List.mem_cons.mp hr with rfl | hr'
        · refine ⟨⟨w, hgf⟩, fun v hv hvk => ?_⟩
          rw [hgf] at hv
          cases hv
          rw [if_neg hvk] at h
          cases h
          exact List.mem_cons_self _ _
        · obtain ⟨hex, hmem⟩ := ih tail hsn hr'
          refine ⟨hex, fun v hv hvk => ?_⟩
          by_cases hw : w ∈ ks
          · rw [if_pos hw] at h
            cases h
            exact hmem v hv hvk
          · rw [if_neg hw] at h
            cases h
            exact List.mem_cons_of_mem _ (hmem v hv hvk)

theorem selectNew_subset (ks : List Nat) (d ns : List Record) (f : String)
    (h : selectNew ks d f = .ok ns) (r : Record) (hr : r ∈ ns) : r ∈ d := by
  induction d generalizing ns with
  | nil =>
    unfold selectNew at h
    cases h
    simp at hr
  | cons item rest ih =>
    unfold selectNew at h
    cases hgf : item.getField f with
    | none =>
      rw [hgf] at h
      cases h
    | some w =>
      rw [hgf] at h
      cases hsn : selectNew ks rest f with
      | error e =>
        rw [hsn] at h
        cases h
      | ok tail =>
        rw [hsn] at h
        dsimp only at h
        by_cases hw : w ∈ ks
        · rw [if_pos hw] at h
          cases h
          exact List.mem_cons_of_mem _ (ih _ hsn hr)
        · rw [if_neg hw] at h
          cases h
          rcases List.mem_cons.mp hr with rfl | hr'
          · exact List.mem_cons_self _ _
          · exact List.mem_cons_of_mem _ (ih tail hsn hr')

theorem selectNew_keys (ks : List Nat) (d ns : List Record) (f : String)
    (h : selectNew ks d f = .ok ns) :
    keysOf ns f = (keysOf d f).filter (fun v => decide (v ∉ ks)) := by
  induction d generalizing ns with
  | nil =>
    unfold selectNew at h
    cases h
    rfl
  | cons item rest ih =>
    unfold selectNew at h
    cases hgf : item.getField f with
    | none =>
      rw [hgf] at h
      cases h
    | some w =>
      rw [hgf] at h
      cases hsn : selectNew ks rest f with
      | error e =>
        rw [hsn] at h
        cases h
      | ok tail =>
        rw [hsn] at h
        dsimp only at h
        rw [keysOf_cons_some item rest f w hgf]
        by_cases hw : w ∈ ks
        · rw [if_pos hw] at h
          cases h
          rw [List.filter_cons_of_neg (by simpa using hw)]
          exact ih _ hsn
        · rw [if_neg hw] at h
          cases h
          rw [List.filter_cons_of_pos (by simpa using hw),
            keysOf_cons_some item tail f w hgf]
          rw [ih tail hsn]

theorem selectNew_ok_of_present (ks : List Nat) (d : List Record)
    (f : String) (h : ∀ r ∈ d, (r.getField f).isSome) :
    ∃ ns, selectNew ks d f = .ok ns := by
  induction d with
  | nil => exact ⟨[], rfl⟩
  | cons item rest ih =>
    obtain ⟨v, hv⟩ := Option.isSome_iff_exists.mp (h item (by simp))
    obtain ⟨tail, htail⟩ := ih (fun r hr => h r (by simp [hr]))
    unfold selectNew
    rw [hv, htail]
    dsimp only
    by_cases hw : v ∈ ks
    · exact ⟨tail, by rw [if_pos hw]⟩
    · exact ⟨item :: tail, by rw [if_neg hw]⟩

/-! ## Lemmas about `_merge_data` -/

theorem mergeData_error_of_missing_field (ex : List Record)
    (d : List Record) (f : String) (hex : ex ≠ [])
    (hmiss : ∃ r ∈ d, r.getField f = none) :
    mergeData (some ex) d f = .error .keyError := by
  obtain ⟨e0, es, rfl⟩ : ∃ e0 es, ex = e0 :: es := by
    cases ex with
    | nil => exact absurd rfl hex
    | cons a b => exact ⟨a, b, rfl⟩
  unfold mergeData
  dsimp only
  cases hck : collectKeys (e0 :: es) f with
  | error e' =>
    have he := collectKeys_error_is_keyError _ _ _ hck
    subst he
    rfl
  | ok ks =>
    dsimp only
    rw [selectNew_error_of_missing_field ks d f hmiss]

theorem mergeData_ok_nil (x : Option (List Record)) (d : List Record)
    (f : String) (h : mergeData x d f = .ok []) : d = [] := by
  cases x with
  | none =>
    unfold mergeData at h
    cases h
    rfl
  | some ex =>
    cases ex with
    | nil =>
      unfold mergeData at h
      cases h
      rfl
    | cons e0 es =>
      unfold mergeData at h
      dsimp only at h
      cases hck : collectKeys (e0 :: es) f with
      | error e =>
        rw [hck] at h
        cases h
      | ok ks =>
        rw [hck] at h
        dsimp only at h
        cases hsn : selectNew ks d f with
        | error e =>
          rw [hsn] at h
          cases h
        | ok ns =>
          rw [hsn] at h
          simp at h

theorem mergeData_value_mem (x : Option (List Record)) (d m : List Record)
    (f : String) (h : mergeData x d f = .ok m) (r : Record) (hr : r ∈ d)
    (v : Nat) (hv : r.getField f = some v) :
    ∃ q ∈ m, q.getField f = some v := by
  cases x with
  | none =>
    unfold mergeData at h
    cases h
    exact ⟨r, hr, hv⟩
  | some ex =>
    cases ex with
    | nil =>
      unfold mergeData at h
      cases h
      exact ⟨r, hr, hv⟩
    | cons e0 es =>
      unfold mergeData at h
      dsimp only at h
      cases hck : collectKeys (e0 :: es) f with
      | error e =>
        rw [hck] at h
        cases h
      | ok ks =>
        rw [hck] at h
        dsimp only at h
        cases hsn : selectNew ks d f with
        | error e =>
          rw [hsn] at h
          cases h
        | ok ns =>
          rw [hsn] at h
          cases h
          by_cases hvk : v ∈ ks
          · obtain ⟨q, hq, hqv⟩ := collectKeys_mem_inv _ _ _ hck v hvk
            exact ⟨q, List.mem_append_left _ hq, hqv⟩
          · have := (selectNew_sound ks d ns f hsn r hr).2 v hv hvk
            exact ⟨r, List.mem_append_right _ this, hv⟩

theorem withStore_self (c : Cache) (cat : Category) :
    c.withStore cat (c.store cat) c.cacheExpiry = c := by
  cases cat <;> rfl

theorem setInStore_of_all_ok (store : Store) (em : ExpiryMap)
    (ticker : String) (data : List Record) (f : String) (now ttl : Int)
    (m : List Record)
    (hm : mergeData (alookup store ticker) data f = .ok m)
    (he : enforceSizeLimit (ainsert store ticker m) = .ok ()) :
    setInStore store em ticker data f now ttl =
      (ainsert store ticker m, ainsert em ticker (now + ttl), .ok ()) := by
  unfold setInStore
  rw [hm]
  dsimp only
  rw [he]

/-- C10: if the (category, ticker) already holds a non-empty record list
and some record of the batch lacks the category's dedup field, the set
call raises `KeyError` and leaves the whole cache state unchanged; if the
ticker holds no records, the batch is stored as-is without the dedup field
ever being read, so records lacking it are accepted (provided the store
stays within the size bound, where the separate `popitem` `TypeError`
would fire). -/
theorem set_missing_dedup_field (c : Cache) (cat : Category)
    (ticker : String) (data : List Record) (now : Int) :
    (∀ l, alookup (c.store cat) ticker = some l → l ≠ [] →
      (∃ r ∈ data, r.getField cat.keyField = none) →
      setCategory c cat ticker data now = (c, .error .keyError)) ∧
    ((alookup (c.store cat) ticker = none ∨
        alookup (c.store cat) ticker = some []) →
      (ainsert (c.store cat) ticker data).length ≤ MAX_CACHE_SIZE →
      (setCategory c cat ticker data now).2 = .ok () ∧
      alookup ((setCategory c cat ticker data now).1.store cat) ticker =
        some data) := by
  constructor
  · intro l hl hlne hmiss
    have hm : mergeData (alookup (c.store cat) ticker) data cat.keyField =
        .error .keyError := by
      rw [hl]
      exact mergeData_error_of_missing_field l data cat.keyField hlne hmiss
    rw [setCategory_eq, setInStore_of_merge_error _ _ _ _ _ _ _ _ hm]
    dsimp only
    rw [withStore_self]
  · intro hempty hsize
    have hm : mergeData (alookup (c.store cat) ticker) data cat.keyField =
        .ok data := by
      rcases hempty with h | h
      · rw [h]
        rfl
      · rw [h]
        rfl
    have henf : enforceSizeLimit (ainsert (c.store cat) ticker data) =
        .ok () := by
      unfold enforceSizeLimit
      rw [if_neg (by omega)]
    rw [setCategory_eq, setInStore_of_all_ok _ _ _ _ _ _ _ _ hm henf]
    dsimp only
    exact ⟨rfl, by rw [withStore_store_self]; exact alookup_ainsert_self _ _ _⟩

/-- A cache whose prices store already holds a record for `"A"`. -/
def nonEmptyPricesCache : Cache :=
  { initCache with prices := [("A", [[("time", 1)]])] }

/-- Witness for C10 at concrete inputs: merging a record lacking `"time"`
into a non-empty prices entry errors and changes nothing; storing it under
a ticker with no records succeeds as-is. -/
theorem set_missing_dedup_field_witness :
    (setCategory nonEmptyPricesCache Category.prices "A" [[("x", 2)]] 0 =
      (nonEmptyPricesCache, .error .keyError)) ∧
    ((setCategory initCache Category.prices "A" [[("x", 2)]] 0).2 =
      .ok ()) ∧
    (alookup ((setCategory initCache Category.prices "A"
      [[("x", 2)]] 0).1.store Category.prices) "A" = some [[("x", 2)]]) := by
  refine ⟨?_, ?_, ?_⟩
  · exact (set_missing_dedup_field nonEmptyPricesCache Category.prices "A"
      [[("x", 2)]] 0).1 [[("time", 1)]] (by decide) (by decide)
      ⟨[("x", 2)], by decide, by decide⟩
  · exact ((set_missing_dedup_field initCache Category.prices "A"
      [[("x", 2)]] 0).2 (Or.inl (by decide)) (by decide)).1
  · exact ((set_missing_dedup_field initCache Category.prices "A"
      [[("x", 2)]] 0).2 (Or.inl (by decide)) (by decide)).2

/-! ## C9: idempotence of merge-append -/

/-- Store-level core of idempotence: running the same set twice leaves the
stored record list of the ticker as after the first run — the second merge
either appends nothing or fails before mutating. -/
theorem setInStore_stored_twice (store : Store) (em em2 : ExpiryMap)
    (ticker : String) (data : List Record) (f : String)
    (n1 n2 ttl1 ttl2 : Int) :
    alookup (setInStore (setInStore store em ticker data f n1 ttl1).1 em2
      ticker data f n2 ttl2).1 ticker =
    alookup (setInStore store em ticker data f n1 ttl1).1 ticker := by
  cases hm : mergeData (alookup store ticker) data f with
  | error e =>
    rw [setInStore_of_merge_error _ _ _ _ _ _ _ _ hm]
    dsimp only
    rw [setInStore_of_merge_error _ _ _ _ _ _ _ _ hm]
  | ok m =>
    obtain ⟨h1, h2⟩ := setInStore_of_merge_ok store em ticker data f n1
      ttl1 m hm
    rw [h1]
    have hlook : alookup (ainsert store ticker m) ticker = some m :=
      alookup_ainsert_self _ _ _
    cases m with
    | nil =>
      have hdata : data = [] := mergeData_ok_nil _ _ _ hm
      subst hdata
      have hm2 : mergeData (alookup (ainsert store ticker []) ticker) []
          f = .ok [] := by
        rw [hlook]
        rfl
      obtain ⟨h1', h2'⟩ := setInStore_of_merge_ok _ em2 _ _ _ n2 ttl2 _ hm2
      rw [h1', alookup_ainsert_self, hlook]
    | cons m0 ms =>
      cases hck : collectKeys (m0 :: ms) f with
      | error e =>
        have hm2 : mergeData (alookup (ainsert store ticker (m0 :: ms))
            ticker) data f = .error e := by
          rw [hlook]
          unfold mergeData
          dsimp only
          rw [hck]
        rw [setInStore_of_merge_error _ _ _ _ _ _ _ _ hm2]
      | ok km =>
        by_cases hpres : ∀ r ∈ data, ∃ v, r.getField f = some v
        · have hall : ∀ r ∈ data, ∃ v, r.getField f = some v ∧ v ∈ km := by
            intro r hr
            obtain ⟨v, hv⟩ := hpres r hr
            obtain ⟨q, hq, hqv⟩ := mergeData_value_mem _ _ _ _ hm r hr v hv
            exact ⟨v, hv, collectKeys_mem _ _ _ hck q hq v hqv⟩
          have hsel : selectNew km data f = .ok [] :=
            selectNew_all_mem _ _ _ hall
          have hm2 : mergeData (alookup (ainsert store ticker (m0 :: ms))
              ticker) data f = .ok (m0 :: ms) := by
            rw [hlook]
            unfold mergeData
            dsimp only
            rw [hck]
            dsimp only
            rw [hsel]
            simp
          obtain ⟨h1', h2'⟩ := setInStore_of_merge_ok _ em2 _ _ _ n2 ttl2 _
            hm2
          rw [h1', alookup_ainsert_self, hlook]
        · have hmiss : ∃ r ∈ data, r.getField f = none := by
            push_neg at hpres
            obtain ⟨r, hr, hrn⟩ := hpres
            refine ⟨r, hr, ?_⟩
            cases hgf : r.getField f with
            | none => rfl
            | some v => exact absurd hgf (hrn v)
          have hm2 : mergeData (alookup (ainsert store ticker (m0 :: ms))
              ticker) data f = .error .keyError := by
            rw [hlook]
            exact mergeData_error_of_missing_field (m0 :: ms) data f
              (by simp) hmiss
          rw [setInStore_of_merge_error _ _ _ _ _ _ _ _ hm2]

/-- C9: merge-append is idempotent — for every (category, ticker) and
every batch, calling the category's set twice in succession leaves the
stored record list for the ticker identical to its value after the first
call: the second call appends nothing (and if it raises, it raises before
mutating the list). -/
theorem set_twice_stored_list_idempotent (c : Cache) (cat : Category)
    (ticker : String) (data : List Record) (t1 t2 : Int) :
    alookup ((setCategory (setCategory c cat ticker data t1).1 cat ticker
      data t2).1.store cat) ticker =
    alookup ((setCategory c cat ticker data t1).1.store cat) ticker := by
  have key := setInStore_stored_twice (c.store cat) c.cacheExpiry
    ((setInStore (c.store cat) c.cacheExpiry ticker data cat.keyField t1
      c.ttl).2.1) ticker data cat.keyField t1 t2 c.ttl c.ttl
  rw [setCategory_eq c]
  rcases hx : setInStore (c.store cat) c.cacheExpiry ticker data
    cat.keyField t1 c.ttl with ⟨s1, e1, r1⟩
  rw [hx] at key
  dsimp only at key ⊢
  rw [setCategory_eq, withStore_store_self, withStore_cacheExpiry,
    withStore_ttl]
  rcases hy : setInStore s1 e1 ticker data cat.keyField t2 c.ttl with
    ⟨s2, e2, r2⟩
  rw [withStore_store_self c cat s1 e1]
  rw [hy] at key ⊢
  dsimp only at key ⊢
  exact key

/-! ## C2: the dedup invariant -/

/-- A batch whose two records share the dedup value 1 for `"time"`. -/
def dupBatch : List Record := [[("time", 1)], [("time", 1), ("close", 5)]]

/-- C2 counterexample: a single `set_prices` call whose batch contains two
records sharing a dedup-field value stores both of them — on a ticker with
no records the merge returns the batch as-is and never deduplicates within
the batch — so the final stored list does not contain exactly one record
per distinct dedup-field value. -/
theorem merge_dedup_counterexample :
    alookup ((setPrices initCache "A" dupBatch 0).1.prices) "A" =
      some dupBatch ∧
    ¬ (dupBatch.map (fun r => r.getField "time")).Nodup := by
  constructor
  · rfl
  · decide

/-- A sequence of timed `set` calls for one category and ticker. -/
def applySets (cat : Category) (ticker : String)
    (batches : List (List Record × Int)) (c : Cache) : Cache :=
  match batches with
  | [] => c
  | b :: rest =>
    applySets cat ticker rest (setCategory c cat ticker b.1 b.2).1

/-- First-seen-order accumulation of dedup values: append the not yet
seen values in input order. -/
def firstSeen (acc ks : List Nat) : List Nat :=
  acc ++ ks.filter (fun v => decide (v ∉ acc))

theorem firstSeen_nil_left (ks : List Nat) : firstSeen [] ks = ks := by
  simp [firstSeen]

theorem firstSeen_nodup (acc ks : List Nat) (hacc : acc.Nodup)
    (hks : ks.Nodup) : (firstSeen acc ks).Nodup := by
  unfold firstSeen
  refine List.Nodup.append hacc (hks.filter _) ?_
  intro v hv hv'
  have := List.of_mem_filter hv'
  simp at this
  exact this hv

theorem foldl_firstSeen_nodup (kss : List (List Nat)) (acc : List Nat)
    (hacc : acc.Nodup) (hkss : ∀ ks ∈ kss, ks.Nodup) :
    (kss.foldl firstSeen acc).Nodup := by
  induction kss generalizing acc with
  | nil => exact hacc
  | cons ks rest ih =>
    exact ih (firstSeen acc ks)
      (firstSeen_nodup acc ks hacc (hkss ks (by simp)))
      (fun k hk => hkss k (by simp [hk]))

theorem setCategory_stored_of_empty (c : Cache) (cat : Category)
    (ticker : String) (b : List Record) (now : Int)
    (hl : alookup (c.store cat) ticker = none ∨
      alookup (c.store cat) ticker = some []) :
    alookup ((setCategory c cat ticker b now).1.store cat) ticker =
      some b := by
  have hm : mergeData (alookup (c.store cat) ticker) b cat.keyField =
      .ok b := by
    rcases hl with h | h
    · rw [h]
      rfl
    · rw [h]
      rfl
  obtain ⟨h1, h2⟩ := setInStore_of_merge_ok (c.store cat) c.cacheExpiry
    ticker b cat.keyField now c.ttl b hm
  rw [setCategory_eq]
  rcases hx : setInStore (c.store cat) c.cacheExpiry ticker b cat.keyField
    now c.ttl with ⟨s, e, r⟩
  rw [hx] at h1
  dsimp only at h1 ⊢
  subst h1
  rw [withStore_store_self]
  exact alookup_ainsert_self _ _ _

theorem setCategory_stored_nonempty (c : Cache) (cat : Category)
    (ticker : String) (b : List Record) (now : Int) (l ns : List Record)
    (hl : alookup (c.store cat) ticker = some l) (hlne : l ≠ [])
    (hpres : ∀ r ∈ l, (r.getField cat.keyField).isSome)
    (hsel : selectNew (keysOf l cat.keyField) b cat.keyField = .ok ns) :
    alookup ((setCategory c cat ticker b now).1.store cat) ticker =
      some (l ++ ns) := by
  have hck : collectKeys l cat.keyField = .ok (keysOf l cat.keyField) :=
    collectKeys_of_present _ _ hpres
  have hm : mergeData (some l) b cat.keyField = .ok (l ++ ns) := by
    obtain ⟨l0, ls, rfl⟩ : ∃ l0 ls, l = l0 :: ls := by
      cases l with
      | nil => exact absurd rfl hlne
      | cons a as => exact ⟨a, as, rfl⟩
    unfold mergeData
    dsimp only
    rw [hck]
    dsimp only
    rw [hsel]
  have hm' : mergeData (alookup (c.store cat) ticker) b cat.keyField =
      .ok (l ++ ns) := by
    rw [hl]
    exact hm
  obtain ⟨h1, h2⟩ := setInStore_of_merge_ok (c.store cat) c.cacheExpiry
    ticker b cat.keyField now c.ttl _ hm'
  rw [setCategory_eq]
  rcases hx : setInStore (c.store cat) c.cacheExpiry ticker b cat.keyField
    now c.ttl with ⟨s, e, r⟩
  rw [hx] at h1
  dsimp only at h1 ⊢
  subst h1
  rw [withStore_store_self]
  exact alookup_ainsert_self _ _ _

/-- The stored record list of a ticker across a sequence of sets whose
batches' records all carry the dedup field: its dedup values are the
first-seen fold of the batches' value lists. -/
theorem applySets_keys (cat : Category) (ticker : String)
    (batches : List (List Record × Int)) (c : Cache) (l : List Record)
    (hl : alookup (c.store cat) ticker = some l)
    (hpres : ∀ r ∈ l, (r.getField cat.keyField).isSome)
    (hb : ∀ b ∈ batches, ∀ r ∈ b.1, (r.getField cat.keyField).isSome) :
    ∃ l', alookup ((applySets cat ticker batches c).store cat) ticker =
        some l' ∧
      (∀ r ∈ l', (r.getField cat.keyField).isSome) ∧
      keysOf l' cat.keyField =
        (batches.map (fun b => keysOf b.1 cat.keyField)).foldl firstSeen
          (keysOf l cat.keyField) := by
  induction batches generalizing c l with
  | nil => exact ⟨l, hl, hpres, rfl⟩
  | cons b rest ih =>
    by_cases hlne : l = []
    · subst hlne
      have hstep := setCategory_stored_of_empty c cat ticker b.1 b.2
        (Or.inr hl)
      have hpres' : ∀ r ∈ b.1, (r.getField cat.keyField).isSome :=
        hb b (by simp)
      obtain ⟨l', h1, h2, h3⟩ := ih ((setCategory c cat ticker b.1 b.2).1)
        b.1 hstep hpres' (fun b' hb' r hr => hb b' (by simp [hb']) r hr)
      refine ⟨l', h1, h2, ?_⟩
      rw [h3]
      simp only [keysOf_nil, List.map_cons, List.foldl_cons,
        firstSeen_nil_left]
    · obtain ⟨ns, hsel⟩ := selectNew_ok_of_present (keysOf l cat.keyField)
        b.1 cat.keyField (hb b (by simp))
      have hstep := setCategory_stored_nonempty c cat ticker b.1 b.2 l ns
        hl hlne hpres hsel
      have hpres' : ∀ r ∈ l ++ ns, (r.getField cat.keyField).isSome := by
        intro r hr
        rcases List.mem_append.mp hr with h | h
        · exact hpres r h
        · exact hb b (by simp) r (selectNew_subset _ _ _ _ hsel r h)
      obtain ⟨l', h1, h2, h3⟩ := ih ((setCategory c cat ticker b.1 b.2).1)
        (l ++ ns) hstep hpres' (fun b' hb' r hr => hb b' (by simp [hb']) r hr)
      refine ⟨l', h1, h2, ?_⟩
      rw [h3, keysOf_append, selectNew_keys _ _ _ _ hsel]
      simp only [List.map_cons, List.foldl_cons]
      rfl

/-- C2 amended: for every nonempty sequence of `set` calls on the same
(category, ticker) starting from a fresh cache, provided every batch's
records all carry the category's dedup field with pairwise-distinct values
within each batch, the final stored record list contains exactly one
record per distinct dedup-field value, in first-seen order (its dedup
values are the first-seen fold of the batches' value lists, without
duplicates).  The restriction on the batches is forced: a batch whose
records share a dedup value is stored with both duplicates. -/
theorem merge_dedup_invariant (cat : Category) (ticker : String)
    (b0 : List Record × Int) (batches : List (List Record × Int))
    (hb : ∀ b ∈ b0 :: batches,
      (∀ r ∈ b.1, (r.getField cat.keyField).isSome) ∧
      (keysOf b.1 cat.keyField).Nodup) :
    ∃ l, alookup ((applySets cat ticker (b0 :: batches) initCache).store
        cat) ticker = some l ∧
      keysOf l cat.keyField =
        ((b0 :: batches).map (fun b => keysOf b.1 cat.keyField)).foldl
          firstSeen [] ∧
      (keysOf l cat.keyField).Nodup := by
  have hl0 : alookup (initCache.store cat) ticker = none := by
    cases cat <;> rfl
  have hstep := setCategory_stored_of_empty initCache cat ticker b0.1 b0.2
    (Or.inl hl0)
  obtain ⟨l', h1, h2, h3⟩ := applySets_keys cat ticker batches
    ((setCategory initCache cat ticker b0.1 b0.2).1) b0.1 hstep
    (hb b0 (by simp)).1
    (fun b' hb' r hr => (hb b' (by simp [hb'])).1 r hr)
  refine ⟨l', h1, ?_, ?_⟩
  · rw [h3]
    simp only [List.map_cons, List.foldl_cons, firstSeen_nil_left]
  · rw [h3]
    apply foldl_firstSeen_nodup
    · exact (hb b0 (by simp)).2
    · intro ks hks
      rcases List.mem_map.mp hks with ⟨b', hb', rfl⟩
      exact (hb b' (by simp [hb'])).2

/-- Witness for the amended C2 at a concrete input: two overlapping
batches for `prices`/`"A"`, each internally duplicate-free. -/
theorem merge_dedup_invariant_witness :
    ∃ l, alookup ((applySets Category.prices "A"
        [([[("time", 1)], [("time", 2)]], 0),
         ([[("time", 2)], [("time", 3)]], 10)] initCache).store
        Category.prices) "A" = some l ∧
      keysOf l Category.prices.keyField =
        ([([[("time", 1)], [("time", 2)]], 0),
          ([[("time", 2)], [("time", 3)]], 10)].map
          (fun b => keysOf b.1 Category.prices.keyField)).foldl
          firstSeen [] ∧
      (keysOf l Category.prices.keyField).Nodup :=
  merge_dedup_invariant Category.prices "A"
    ([[("time", 1)], [("time", 2)]], 0)
    [([[("time", 2)], [("time", 3)]], 10)] (by decide)
